import Mathlib

/-! # mongo-hhvm-driver: the Variant to BSON encoder

A shallow embedding of `bson.cpp` (class `VariantToBsonConverter`) and of the
libbson builder calls it makes, followed by theorems about the encoder.

Conventions of the embedding.

* A byte string is a `List Nat` (one number per byte).
* A `const char *` is the list of bytes found in memory from the pointer on;
  `c_str` of a string is its bytes followed by the terminating zero byte.
* `int64_t` values are `Int`; the conversion to a 32 bit `int` is the explicit
  reduction `toInt32`.
* A `double` is carried as its IEEE-754 bit pattern; the encoder never computes
  with it.
* The encoder's writes to `std::cout` are debugging output and are not part of
  the embedding.
-/

namespace HPHP

/-! ## Host values -/

/-- Byte strings: the contents of an HHVM `String`. -/
abbrev StringData := List Nat

/-- Memory read through a `const char *`: the bytes from the pointer on. -/
abbrev CStr := List Nat

/-- Array keys as handed out by `ArrayIter::first()`: an integer or a string. -/
inductive Key where
  | int (k : Int)
  | str (s : StringData)
deriving DecidableEq, Repr

/-- Values of the host runtime, by `DataType`: `KindOfUninit`, `KindOfNull`,
`KindOfBoolean`, `KindOfInt64`, `KindOfDouble`, `KindOfString` (and
`KindOfStaticString`), `KindOfArray` with its entries in iteration order, and
`KindOfObject` with an object handle. -/
inductive Variant where
  | uninit
  | null
  | boolean (b : Bool)
  | int64 (n : Int)
  | double (d : Nat)
  | string (s : StringData)
  | array (a : List (Key × Variant))
  | object (o : Nat)
deriving Repr

/-- Entries of a host array, in iteration order. -/
abbrev ArrayData := List (Key × Variant)

/-- Method `String::size()`: the number of bytes. -/
def StringData.size (s : StringData) : Int := (s.length : Int)

/-- Method `String::c_str()`: the bytes, then the terminating zero byte. -/
def StringData.c_str (s : StringData) : CStr := s ++ [0]

/-- The C string at a pointer: the bytes before the first zero byte. -/
def c_string (p : CStr) : StringData := p.takeWhile (fun c => c != 0)

/-- Function `strlen`. -/
def strlen (p : CStr) : Nat := (c_string p).length

/-- Narrowing of an `int64_t` to a 32 bit `int` (two's complement). -/
def toInt32 (n : Int) : Int := (n + 2147483648) % 4294967296 - 2147483648

/-- Decimal ASCII rendering of a 64 bit integer, as by `Variant::toString()`. -/
def int64ToString (n : Int) : StringData :=
  if n < 0 then 45 :: (Nat.toDigits 10 n.natAbs).map Char.toNat
  else (Nat.toDigits 10 n.toNat).map Char.toNat

/-- Method `Variant::isObject()`. -/
def Variant.isObject : Variant → Bool
  | .object _ => true
  | _ => false

/-- Method `Variant::isArray()`. -/
def Variant.isArray : Variant → Bool
  | .array _ => true
  | _ => false

/-- Method `Variant::isInteger()` on a key. -/
def Key.isInteger : Key → Bool
  | .int _ => true
  | .str _ => false

/-- Method `Variant::toString()` on a key. -/
def Key.toString : Key → StringData
  | .int k => int64ToString k
  | .str s => s

/-! ## The libbson builder -/

/-- A typed BSON value; the constructor is the type tag of the element holding
it. A sub-document and an array have the same body layout and differ in the
tag only. -/
inductive bson_value where
  | null
  | bool (v : Bool)
  | int64 (v : Int)
  | double (v : Nat)
  | utf8 (v : StringData)
  | document (body : List (StringData × bson_value))
  | array (body : List (StringData × bson_value))
deriving Repr

/-- One element: its key and its typed value. -/
abbrev bson_element := StringData × bson_value

/-- The two kinds of nested frame. -/
inductive frame_kind where
  | ARRAY
  | DOCUMENT
deriving DecidableEq, Repr

/-- A document under construction: the elements appended so far, and the tag
and key of a child frame that was begun and is not yet ended. -/
structure bson_t where
  elems : List bson_element
  child : Option (frame_kind × StringData)
deriving Repr

/-- Function `bson_new`: the empty document. -/
def bson_new : bson_t := ⟨[], none⟩

/-- The key an append call stores: with a negative `key_length` the C string
at `key` (found with `strlen`), else the first `key_length` bytes. -/
def element_key (key : CStr) (key_length : Int) : StringData :=
  if key_length < 0 then c_string key else key.take key_length.toNat

/-- Append one finished element. -/
def bson_append (bson : bson_t) (key : CStr) (key_length : Int) (v : bson_value) : bson_t :=
  ⟨bson.elems ++ [(element_key key key_length, v)], bson.child⟩

/-- Function `bson_append_null`. -/
def bson_append_null (bson : bson_t) (key : CStr) (key_length : Int) : bson_t :=
  bson_append bson key key_length .null

/-- Function `bson_append_bool`. -/
def bson_append_bool (bson : bson_t) (key : CStr) (key_length : Int) (v : Bool) : bson_t :=
  bson_append bson key key_length (.bool v)

/-- Function `bson_append_int64`. -/
def bson_append_int64 (bson : bson_t) (key : CStr) (key_length : Int) (v : Int) : bson_t :=
  bson_append bson key key_length (.int64 v)

/-- Function `bson_append_double`. -/
def bson_append_double (bson : bson_t) (key : CStr) (key_length : Int) (v : Nat) : bson_t :=
  bson_append bson key key_length (.double v)

/-- Function `bson_append_utf8`: with a negative `length` the value is the C
string at `value`, else its first `length` bytes. -/
def bson_append_utf8 (bson : bson_t) (key : CStr) (key_length : Int) (value : CStr)
    (length : Int) : bson_t :=
  bson_append bson key key_length
    (.utf8 (if length < 0 then c_string value else value.take length.toNat))

/-- Function `bson_append_array_begin`: writes the array tag and the key to the
parent and hands out an empty child. Returns the parent and the child. -/
def bson_append_array_begin (bson : bson_t) (key : CStr) (key_length : Int) : bson_t × bson_t :=
  (⟨bson.elems, some (.ARRAY, element_key key key_length)⟩, bson_new)

/-- Function `bson_append_document_begin`: as for an array, with the document
tag. -/
def bson_append_document_begin (bson : bson_t) (key : CStr) (key_length : Int) :
    bson_t × bson_t :=
  (⟨bson.elems, some (.DOCUMENT, element_key key key_length)⟩, bson_new)

/-- Function `_bson_append_bson_end`: closes the open child frame, making the
child's elements the body of the element begun in the parent. -/
def _bson_append_bson_end (bson child : bson_t) : bson_t :=
  match bson.child with
  | none => bson
  | some (.ARRAY, k) => ⟨bson.elems ++ [(k, .array child.elems)], none⟩
  | some (.DOCUMENT, k) => ⟨bson.elems ++ [(k, .document child.elems)], none⟩

/-- Function `bson_append_array_end`. -/
def bson_append_array_end (bson child : bson_t) : bson_t := _bson_append_bson_end bson child

/-- Function `bson_append_document_end`. -/
def bson_append_document_end (bson child : bson_t) : bson_t := _bson_append_bson_end bson child

/-! ## `VariantToBsonConverter` -/

namespace VariantToBsonConverter

/-- The loop of `_isPackedArray`, from counter value `idx`. The counter is an
`int`; it stays below `2^31` for every array of fewer than `2^31` entries. -/
def _isPackedArray_loop (idx : Nat) : ArrayData → Bool
  | [] => true
  | (key, _) :: rest =>
    if !key.isInteger then false
    else
      match key with
      | .str _ => false
      | .int k =>
        let key_value := toInt32 k
        if (idx : Int) ≠ key_value then false
        else _isPackedArray_loop (idx + 1) rest

/-- Method `_isPackedArray`. -/
def _isPackedArray (a : ArrayData) : Bool := _isPackedArray_loop 0 a

/-- Overload `convertPart(bson, key)`: null. -/
def convertPart_null (bson : bson_t) (key : CStr) : bson_t :=
  bson_append_null bson key (-1)

/-- Overload `convertPart(bson, key, bool)`. -/
def convertPart_bool (bson : bson_t) (key : CStr) (v : Bool) : bson_t :=
  bson_append_bool bson key (-1) v

/-- Overload `convertPart(bson, key, int64_t)`. -/
def convertPart_int64 (bson : bson_t) (key : CStr) (v : Int) : bson_t :=
  bson_append_int64 bson key (-1) v

/-- Overload `convertPart(bson, key, double)`. -/
def convertPart_double (bson : bson_t) (key : CStr) (v : Nat) : bson_t :=
  bson_append_double bson key (-1) v

/-- Overload `convertPart(bson, key, String)`. -/
def convertPart_String (bson : bson_t) (key : CStr) (v : StringData) : bson_t :=
  bson_append_utf8 bson key (-1) v.c_str v.size

/-- Overload `convertPart(bson, key, Object)`: an empty body. -/
def convertPart_Object (bson : bson_t) (_key : CStr) (_v : Nat) : bson_t := bson

mutual
/-- Overload `convertPart(bson, key, Variant)`: the switch on the type, with
the body of `convertPart(bson, key, Array)` in its array case. -/
def convertPart_Variant (bson : bson_t) (key : CStr) : Variant → bson_t
  | .uninit => convertPart_null bson key
  | .null => convertPart_null bson key
  | .boolean b => convertPart_bool bson key b
  | .int64 n => convertPart_int64 bson key n
  | .double d => convertPart_double bson key d
  | .string s => convertPart_String bson key s
  | .array v =>
    let opened :=
      if _isPackedArray v then bson_append_array_begin bson key (-1)
      else bson_append_document_begin bson key (-1)
    let child := convertPart_Array_loop opened.2 v
    if _isPackedArray v then bson_append_array_end opened.1 child
    else bson_append_document_end opened.1 child
  | .object o => convertPart_Object bson key o
/-- The entry loop of `convertPart(bson, key, Array)`, writing into `child`. -/
def convertPart_Array_loop (child : bson_t) : List (Key × Variant) → bson_t
  | [] => child
  | (key, data) :: rest =>
    convertPart_Array_loop (convertPart_Variant child key.toString.c_str data) rest
end

/-- Overload `convertPart(bson, key, Array)`. -/
def convertPart_Array (bson : bson_t) (key : CStr) (v : ArrayData) : bson_t :=
  convertPart_Variant bson key (.array v)

/-- Overload `convert(bson, Array)`: the top level loop. -/
def convert_Array (bson : bson_t) : ArrayData → bson_t
  | [] => bson
  | (key, data) :: rest =>
    convert_Array (convertPart_Variant bson key.toString.c_str data) rest

/-- Overload `convert(bson, Variant)`. -/
def convert_Variant (bson : bson_t) : Variant → bson_t
  | .object _ => bson
  | .array a => convert_Array bson a
  | _ => bson

end VariantToBsonConverter

/-- The converter object: its document and its level. -/
structure VariantToBsonConverter where
  m_document : Variant
  m_level : Nat

/-- The constructor `VariantToBsonConverter(document)`. -/
def VariantToBsonConverter.new (document : Variant) : VariantToBsonConverter := ⟨document, 0⟩

/-- Method `convert(bson)`. -/
def VariantToBsonConverter.convert (self : VariantToBsonConverter) (bson : bson_t) : bson_t :=
  VariantToBsonConverter.convert_Variant bson self.m_document

/-! ## How a call ends -/

/-- The error kinds named by the specification. -/
inductive EncodeError where
  | UnsupportedType
  | InvalidRoot
  | KeyEncodingError
deriving DecidableEq, Repr

/-- The two ways a call can end for its caller: it returns, leaving the
builder in some state, or it fails with an error. -/
inductive Outcome where
  | returned (bson : bson_t)
  | failed (e : EncodeError)
deriving Repr

/-- A call of `convert(bson)` as its caller sees it. The methods of
`bson.cpp` are `void`, contain no `throw` and ignore the status returned by
the libbson calls, so the call returns, with the builder as `convert` left
it. -/
def VariantToBsonConverter.call (self : VariantToBsonConverter) (bson : bson_t) : Outcome :=
  .returned (self.convert bson)

/-! ## The companion decoder -/

mutual
/-- Modelled from the spec: the companion decoder `BsonToVariantConverter` is
declared in `bson.h` and used by `getTagSets`, and its code is not under
`src/`. A scalar element decodes to the scalar of its tag, an array-framed
element to a container with the integer keys `0, 1, ..., n-1`, a
document-framed element to a container with the element keys. -/
def decodeValue : bson_value → Variant
  | .null => .null
  | .bool v => .boolean v
  | .int64 v => .int64 v
  | .double v => .double v
  | .utf8 v => .string v
  | .document body => .array (decodeDocument body)
  | .array body => .array (decodeArray 0 body)
/-- Modelled from the spec: the entries decoded from a document body, under
the element keys. The decoder's code is not under `src/`. -/
def decodeDocument : List (StringData × bson_value) → List (Key × Variant)
  | [] => []
  | (k, v) :: rest => (.str k, decodeValue v) :: decodeDocument rest
/-- Modelled from the spec: the entries decoded from an array body, under the
integer keys counted from `idx`. The decoder's code is not under `src/`. -/
def decodeArray (idx : Nat) : List (StringData × bson_value) → List (Key × Variant)
  | [] => []
  | (_, v) :: rest => (.int idx, decodeValue v) :: decodeArray (idx + 1) rest
end

/-- Modelled from the spec: decoding a whole document with the companion
decoder `BsonToVariantConverter::convert`, whose code is not under `src/`;
the root is a document. -/
def decode (bson : bson_t) : Variant := .array (decodeDocument bson.elems)

/-! ## Predicates used in the statements -/

/-- The keys are exactly the integers `idx, idx+1, ...` in order. -/
def keysAreIndices (idx : Nat) : ArrayData → Bool
  | [] => true
  | (k, _) :: rest => decide (k = Key.int idx) && keysAreIndices (idx + 1) rest

/-- Every key is a string key without a zero byte. -/
def keysAreNames : ArrayData → Bool
  | [] => true
  | (.str s, _) :: rest => s.all (fun c => c != 0) && keysAreNames rest
  | (.int _, _) :: _ => false

mutual
/-- The shape of a value that the encoder and the companion decoder carry
unchanged: no `Uninit` and no object, and every container in it has either
string keys without a zero byte or exactly the keys `0, ..., n-1` with
`n ≤ 2^31`. -/
def Variant.roundTripShape : Variant → Bool
  | .uninit => false
  | .null => true
  | .boolean _ => true
  | .int64 _ => true
  | .double _ => true
  | .string _ => true
  | .array a =>
    ((keysAreIndices 0 a && decide (a.length ≤ 2147483648)) || keysAreNames a)
      && entriesRoundTripShape a
  | .object _ => false
/-- Every value of the entries has the round trip shape. -/
def entriesRoundTripShape : List (Key × Variant) → Bool
  | [] => true
  | (_, v) :: rest => v.roundTripShape && entriesRoundTripShape rest
end

/-- An integer key lies in the range of a 32 bit `int`; a string key always
counts. -/
def Key.fitsInt32 : Key → Bool
  | .int k => decide (-2147483648 ≤ k) && decide (k < 2147483648)
  | .str _ => true

mutual
/-- No object anywhere in the value, and every integer key at every depth
lies in the range of a 32 bit `int`. -/
def Variant.plain32 : Variant → Bool
  | .array a => entriesPlain32 a
  | .object _ => false
  | _ => true
/-- Every entry has a key in 32 bit range and a `plain32` value. -/
def entriesPlain32 : List (Key × Variant) → Bool
  | [] => true
  | (k, v) :: rest => k.fitsInt32 && v.plain32 && entriesPlain32 rest
end

/-- The keys of the elements are the decimal strings of `idx, idx+1, ...` in
order. -/
def arrayKeysFrom (idx : Nat) : List bson_element → Bool
  | [] => true
  | (k, _) :: rest => decide (k = int64ToString idx) && arrayKeysFrom (idx + 1) rest

mutual
/-- Every array frame inside the value, at any depth, has the keys
`"0", "1", ..., "n-1"` in order, `n` being its number of elements. -/
def bson_value.arrayKeysOk : bson_value → Bool
  | .document body => bodyArrayKeysOk body
  | .array body => arrayKeysFrom 0 body && bodyArrayKeysOk body
  | _ => true
/-- Every element value of the body satisfies `arrayKeysOk`. -/
def bodyArrayKeysOk : List (StringData × bson_value) → Bool
  | [] => true
  | (_, v) :: rest => v.arrayKeysOk && bodyArrayKeysOk rest
end

/-! ## The classification computed once -/

namespace VariantToBsonConverter

mutual
/-- The container encoder in the specification's words: the classifier is
run once, before the frame is opened, and the same result opens and closes
the frame. The scalar cases are those of `convertPart_Variant`. -/
def convertPart_Variant_classifyOnce (bson : bson_t) (key : CStr) : Variant → bson_t
  | .uninit => convertPart_null bson key
  | .null => convertPart_null bson key
  | .boolean b => convertPart_bool bson key b
  | .int64 n => convertPart_int64 bson key n
  | .double d => convertPart_double bson key d
  | .string s => convertPart_String bson key s
  | .array v =>
    match _isPackedArray v with
    | true =>
      let opened := bson_append_array_begin bson key (-1)
      bson_append_array_end opened.1 (convertPart_Array_loop_classifyOnce opened.2 v)
    | false =>
      let opened := bson_append_document_begin bson key (-1)
      bson_append_document_end opened.1 (convertPart_Array_loop_classifyOnce opened.2 v)
  | .object o => convertPart_Object bson key o
/-- The entry loop of the encoder that classifies once. -/
def convertPart_Array_loop_classifyOnce (child : bson_t) : List (Key × Variant) → bson_t
  | [] => child
  | (key, data) :: rest =>
    convertPart_Array_loop_classifyOnce
      (convertPart_Variant_classifyOnce child key.toString.c_str data) rest
end

end VariantToBsonConverter

/-! ## The frame calls of the encoder -/

/-- A call that opens or closes a nested frame: `bson_append_array_begin` and
`bson_append_document_begin` open, `bson_append_array_end` and
`bson_append_document_end` close, each with its kind. -/
inductive frame_call where
  | opened (kind : frame_kind)
  | closed (kind : frame_kind)
deriving DecidableEq, Repr

namespace VariantToBsonConverter

mutual
/-- The frame calls that `convertPart(bson, key, Variant)` makes, in order:
for a container the begin call chosen by the first run of `_isPackedArray`,
the calls made for the entries, and the end call chosen by the second run. -/
def convertPart_Variant_frames : Variant → List frame_call
  | .array v =>
    (if _isPackedArray v then [frame_call.opened .ARRAY] else [frame_call.opened .DOCUMENT])
      ++ convertPart_Array_loop_frames v
      ++ (if _isPackedArray v then [frame_call.closed .ARRAY]
          else [frame_call.closed .DOCUMENT])
  | _ => []
/-- The frame calls made by the entry loop, in order. -/
def convertPart_Array_loop_frames : List (Key × Variant) → List frame_call
  | [] => []
  | (_, data) :: rest => convertPart_Variant_frames data ++ convertPart_Array_loop_frames rest
end

end VariantToBsonConverter

/-- Whether a sequence of frame calls is matched, given the kinds of the
frames already open (innermost first): every close call closes the innermost
open frame with the kind it was opened with, and no frame stays open. -/
def framesMatch (stack : List frame_kind) : List frame_call → Bool
  | [] => stack.isEmpty
  | .opened kind :: rest => framesMatch (kind :: stack) rest
  | .closed kind :: rest =>
    match stack with
    | [] => false
    | top :: below => decide (top = kind) && framesMatch below rest

/-! ## Recursion depth -/

mutual
/-- Container nesting depth of a value: `0` for a scalar or an object, and
one more than the deepest entry for a container. -/
def Variant.nestingDepth : Variant → Nat
  | .array a => entriesNestingDepth a + 1
  | _ => 0
/-- The largest nesting depth among the values of the entries. -/
def entriesNestingDepth : List (Key × Variant) → Nat
  | [] => 0
  | (_, v) :: rest => max v.nestingDepth (entriesNestingDepth rest)
end

namespace VariantToBsonConverter

mutual
/-- The encoder `convertPart(bson, key, Variant)` run with a bound on the
number of activations of `convertPart(bson, key, Array)` that may be nested
in one another; `none` when the bound is exceeded. The code itself has no
such bound. -/
def convertPart_Variant_limited (bson : bson_t) (key : CStr) : Variant → Nat → Option bson_t
  | .uninit, _ => some (convertPart_null bson key)
  | .null, _ => some (convertPart_null bson key)
  | .boolean b, _ => some (convertPart_bool bson key b)
  | .int64 n, _ => some (convertPart_int64 bson key n)
  | .double d, _ => some (convertPart_double bson key d)
  | .string s, _ => some (convertPart_String bson key s)
  | .array _, 0 => none
  | .array v, limit + 1 =>
    let opened :=
      if _isPackedArray v then bson_append_array_begin bson key (-1)
      else bson_append_document_begin bson key (-1)
    match convertPart_Array_loop_limited opened.2 v limit with
    | none => none
    | some child =>
      some (if _isPackedArray v then bson_append_array_end opened.1 child
        else bson_append_document_end opened.1 child)
  | .object o, _ => some (convertPart_Object bson key o)
/-- The entry loop under the same bound. -/
def convertPart_Array_loop_limited (child : bson_t) :
    List (Key × Variant) → Nat → Option bson_t
  | [], _ => some child
  | (key, data) :: rest, limit =>
    match convertPart_Variant_limited child key.toString.c_str data limit with
    | none => none
    | some next => convertPart_Array_loop_limited next rest limit
end

end VariantToBsonConverter

/-! ## `ReadPreference.cpp` -/

/-- The loop of `hippo_mongo_driver_readpreference_are_valid` over the
entries. -/
def hippo_mongo_driver_readpreference_are_valid_loop : ArrayData → Bool
  | [] => true
  | (_, data) :: rest =>
    if !data.isArray && !data.isObject then false
    else hippo_mongo_driver_readpreference_are_valid_loop rest

/-- Function `hippo_mongo_driver_readpreference_are_valid`. -/
def hippo_mongo_driver_readpreference_are_valid (tags : Variant) : Bool :=
  if !tags.isArray then false
  else
    match tags with
    | .array a => hippo_mongo_driver_readpreference_are_valid_loop a
    | _ => false

/-- Function `Array::Create()`: the empty array. -/
def Array_Create : ArrayData := []

/-- Method `Array::add(key, v)`: adds the entry at the end; the key must not
be in the array yet, and `none` stands for a call that breaks this. The keys
handed out by an iterator are in the normal form of array keys and are
stored as they are. -/
def Array_add (arr : ArrayData) (key : Key) (v : Variant) : Option ArrayData :=
  if arr.any (fun e => decide (e.1 = key)) then none else some (arr ++ [(key, v)])

/-- The loop of `hippo_mongo_driver_readpreference_prep_tagsets`. The
conversion `Variant::toObject()` of the runtime is the parameter `toObject`,
giving the handle of the object made from a value. -/
def hippo_mongo_driver_readpreference_prep_tagsets_loop (toObject : Variant → Nat)
    (newTags : ArrayData) : ArrayData → Option ArrayData
  | [] => some newTags
  | (key, data) :: rest =>
    match (if data.isArray then Array_add newTags key (.object (toObject data))
        else Array_add newTags key data) with
    | none => none
    | some next => hippo_mongo_driver_readpreference_prep_tagsets_loop toObject next rest

/-- Function `hippo_mongo_driver_readpreference_prep_tagsets`. -/
def hippo_mongo_driver_readpreference_prep_tagsets (toObject : Variant → Nat)
    (tags : ArrayData) : Option ArrayData :=
  hippo_mongo_driver_readpreference_prep_tagsets_loop toObject Array_Create tags

end HPHP

/-! # Theorems -/

namespace HPHP
open VariantToBsonConverter

/-! ## Byte strings and keys -/

theorem digitChar_toNat_ne_zero : ∀ d < 10, (Nat.digitChar d).toNat ≠ 0 := by
  decide

theorem toDigitsCore_no_zero (fuel : Nat) : ∀ (n : Nat) (acc : List Char),
    (∀ c ∈ acc, c.toNat ≠ 0) → ∀ c ∈ Nat.toDigitsCore 10 fuel n acc, c.toNat ≠ 0 := by
  induction fuel with
  | zero => intro n acc h; simpa [Nat.toDigitsCore] using h
  | succ f ih =>
    intro n acc h
    simp only [Nat.toDigitsCore]
    have h2 : ∀ c ∈ Nat.digitChar (n % 10) :: acc, c.toNat ≠ 0 := by
      intro c hc
      rcases List.mem_cons.mp hc with rfl | hc
      · exact digitChar_toNat_ne_zero _ (Nat.mod_lt _ (by decide))
      · exact h c hc
    split
    · exact h2
    · exact ih _ _ h2

theorem int64ToString_no_zero (n : Int) : ∀ c ∈ int64ToString n, c ≠ 0 := by
  have key : ∀ m : Nat, ∀ c ∈ (Nat.toDigits 10 m).map Char.toNat, c ≠ 0 := by
    intro m c hc
    obtain ⟨ch, hch, rfl⟩ := List.mem_map.mp hc
    exact toDigitsCore_no_zero _ _ [] (by simp) ch hch
  intro c hc
  unfold int64ToString at hc
  split at hc
  · rcases List.mem_cons.mp hc with rfl | hc
    · decide
    · exact key _ c hc
  · exact key _ c hc

theorem c_string_append_zero (s : StringData) : c_string (s ++ [0]) = c_string s := by
  induction s with
  | nil => simp [c_string]
  | cons a t ih =>
    unfold c_string at ih ⊢
    by_cases h : a = 0
    · simp [h, List.takeWhile]
    · simp [h, List.takeWhile, ih]

theorem c_string_of_no_zero (s : StringData) (h : ∀ c ∈ s, c ≠ 0) : c_string s = s := by
  unfold c_string
  rw [List.takeWhile_eq_self_iff]
  intro c hc
  simpa using h c hc

theorem c_string_c_str (s : StringData) : c_string s.c_str = c_string s :=
  c_string_append_zero s

theorem element_key_c_str (s : StringData) : element_key s.c_str (-1) = c_string s := by
  simp [element_key, c_string_c_str]

theorem take_size_c_str (s : StringData) :
    (if s.size < 0 then c_string s.c_str else s.c_str.take s.size.toNat) = s := by
  simp [StringData.size, StringData.c_str]


theorem element_key_neg_one (key : CStr) : element_key key (-1) = c_string key := by
  simp [element_key]

theorem convertPart_Variant_array (bson : bson_t) (key : CStr) (v : ArrayData) :
    convertPart_Variant bson key (.array v) =
      ⟨bson.elems ++ [(c_string key,
          if _isPackedArray v then bson_value.array (convertPart_Array_loop bson_new v).elems
          else bson_value.document (convertPart_Array_loop bson_new v).elems)], none⟩ := by
  rw [convertPart_Variant]
  by_cases h : _isPackedArray v = true
  · simp [h, bson_append_array_begin, bson_append_array_end, _bson_append_bson_end,
      element_key_neg_one]
  · simp [h, bson_append_document_begin, bson_append_document_end, _bson_append_bson_end,
      element_key_neg_one]

theorem convertPart_Variant_elems (v : Variant) (bson : bson_t) (key : CStr) :
    (convertPart_Variant bson key v).elems
      = bson.elems ++ (convertPart_Variant bson_new key v).elems := by
  cases v with
  | array a => simp only [convertPart_Variant_array]; simp [bson_new]
  | _ =>
    simp [convertPart_Variant, convertPart_null, convertPart_bool,
      convertPart_int64, convertPart_double, convertPart_String, convertPart_Object,
      bson_append_null, bson_append_bool, bson_append_int64, bson_append_double,
      bson_append_utf8, bson_append, bson_new]

theorem convertPart_Array_loop_cons (child : bson_t) (k : Key) (d : Variant) (rest : ArrayData) :
    convertPart_Array_loop child ((k, d) :: rest)
      = convertPart_Array_loop (convertPart_Variant child k.toString.c_str d) rest := by
  rw [convertPart_Array_loop]

theorem convertPart_Array_loop_nil (child : bson_t) : convertPart_Array_loop child [] = child := by
  rw [convertPart_Array_loop]

theorem convertPart_Array_loop_elems (a : ArrayData) : ∀ child : bson_t,
    (convertPart_Array_loop child a).elems
      = child.elems ++ (convertPart_Array_loop bson_new a).elems := by
  induction a with
  | nil => intro child; simp [convertPart_Array_loop_nil, bson_new]
  | cons e rest ih =>
    intro child
    obtain ⟨k, d⟩ := e
    rw [convertPart_Array_loop_cons, convertPart_Array_loop_cons, ih,
      ih (convertPart_Variant bson_new _ _), convertPart_Variant_elems d child]
    simp

theorem convert_Array_eq_loop (a : ArrayData) : ∀ bson : bson_t,
    convert_Array bson a = convertPart_Array_loop bson a := by
  induction a with
  | nil => intro bson; simp [convert_Array, convertPart_Array_loop_nil]
  | cons e rest ih =>
    intro bson
    obtain ⟨k, d⟩ := e
    rw [convertPart_Array_loop_cons, convert_Array, ih]

theorem convertPart_Variant_object (bson : bson_t) (key : CStr) (v : Variant)
    (h : v.isObject = true) : convertPart_Variant bson key v = bson := by
  cases v <;> simp [Variant.isObject] at h
  simp [convertPart_Variant, convertPart_Object]

theorem convertPart_Variant_key (v : Variant) (key : CStr) (h : v.isObject = false) :
    ((convertPart_Variant bson_new key v).elems).map Prod.fst = [c_string key] := by
  cases v with
  | array a => simp only [convertPart_Variant_array]; simp [bson_new]
  | object o => simp [Variant.isObject] at h
  | _ =>
    simp [convertPart_Variant, convertPart_null, convertPart_bool,
      convertPart_int64, convertPart_double, convertPart_String,
      bson_append_null, bson_append_bool, bson_append_int64, bson_append_double,
      bson_append_utf8, bson_append, bson_new, element_key_neg_one]

theorem convertPart_Array_loop_keys (a : ArrayData) :
    ((convertPart_Array_loop bson_new a).elems).map Prod.fst
      = (a.filter (fun e => !e.2.isObject)).map (fun e => c_string e.1.toString) := by
  induction a with
  | nil => simp [convertPart_Array_loop_nil, bson_new]
  | cons e rest ih =>
    obtain ⟨k, d⟩ := e
    rw [convertPart_Array_loop_cons, convertPart_Array_loop_elems, List.map_append, ih]
    by_cases h : d.isObject = true
    · simp [h, convertPart_Variant_object, bson_new]
    · simp only [Bool.not_eq_true] at h
      simp [h, convertPart_Variant_key, c_string_c_str]


theorem convertPart_Array_loop_flatMap (a : ArrayData) :
    (convertPart_Array_loop bson_new a).elems
      = a.flatMap (fun e => (convertPart_Variant bson_new e.1.toString.c_str e.2).elems) := by
  induction a with
  | nil => simp [convertPart_Array_loop_nil, bson_new]
  | cons e rest ih =>
    obtain ⟨k, d⟩ := e
    rw [convertPart_Array_loop_cons, convertPart_Array_loop_elems, ih]
    simp

theorem filter_not_isObject_of_none (c : ArrayData) (h : ∀ e ∈ c, e.2.isObject = false) :
    c.filter (fun e => !e.2.isObject) = c := by
  rw [List.filter_eq_self]
  intro e he
  simp [h e he]

/-! ## The classifier -/

/-- C1: the classifier compares the counter with the key narrowed to 32 bits, so
the one-entry container with key 4294967296 is classified as packed although
its keys are not `0, ..., n-1`. -/
theorem isPackedArray_key_4294967296 :
    _isPackedArray [(Key.int 4294967296, Variant.null)] = true
      ∧ [(Key.int 4294967296, Variant.null)].map Prod.fst ≠ [Key.int 0] := by
  decide

/-! ## Scalars -/

/-- C8: for every key and scalar value, `convertPart` appends exactly one
element, under the C string at the key, whose type tag is fixed by the kind of
the value alone and whose payload is the value unchanged: `Uninit` and `Null`
give a null element, a boolean a boolean, an `Int64` a 64 bit integer, a
double a double, a string a UTF-8 string. -/
theorem convertPart_Variant_scalar (bson : bson_t) (key : CStr) :
    convertPart_Variant bson key .uninit = ⟨bson.elems ++ [(c_string key, .null)], bson.child⟩
      ∧ convertPart_Variant bson key .null = ⟨bson.elems ++ [(c_string key, .null)], bson.child⟩
      ∧ (∀ b : Bool, convertPart_Variant bson key (.boolean b)
          = ⟨bson.elems ++ [(c_string key, .bool b)], bson.child⟩)
      ∧ (∀ n : Int, convertPart_Variant bson key (.int64 n)
          = ⟨bson.elems ++ [(c_string key, .int64 n)], bson.child⟩)
      ∧ (∀ d : Nat, convertPart_Variant bson key (.double d)
          = ⟨bson.elems ++ [(c_string key, .double d)], bson.child⟩)
      ∧ (∀ s : StringData, convertPart_Variant bson key (.string s)
          = ⟨bson.elems ++ [(c_string key, .utf8 s)], bson.child⟩) := by
  refine ⟨?_, ?_, ?_, ?_, ?_, ?_⟩
  · simp [convertPart_Variant, convertPart_null, bson_append_null, bson_append,
      element_key_neg_one]
  · simp [convertPart_Variant, convertPart_null, bson_append_null, bson_append,
      element_key_neg_one]
  · intro b
    simp [convertPart_Variant, convertPart_bool, bson_append_bool, bson_append,
      element_key_neg_one]
  · intro n
    simp [convertPart_Variant, convertPart_int64, bson_append_int64, bson_append,
      element_key_neg_one]
  · intro d
    simp [convertPart_Variant, convertPart_double, bson_append_double, bson_append,
      element_key_neg_one]
  · intro s
    simp only [convertPart_Variant, convertPart_String, bson_append_utf8, bson_append,
      element_key_neg_one, take_size_c_str]

/-- C9: for every string `s`, zero bytes included, the appended string element
carries all the bytes of `s`, its length being `s.size()`; the payload is not
cut at a zero byte. -/
theorem convertPart_String_payload (bson : bson_t) (key : CStr) (s : StringData) :
    convertPart_String bson key s = ⟨bson.elems ++ [(c_string key, .utf8 s)], bson.child⟩
      ∧ ((s.length : Int) = s.size)
      ∧ convertPart_String bson_new [107, 0] [97, 0, 98]
          = ⟨[([107], .utf8 [97, 0, 98])], none⟩ := by
  refine ⟨?_, rfl, ?_⟩
  · simp only [convertPart_String, bson_append_utf8, bson_append, element_key_neg_one,
      take_size_c_str]
  · rfl

/-! ## Containers -/

theorem convertPart_Array_loop_append (a b : ArrayData) : ∀ child : bson_t,
    convertPart_Array_loop child (a ++ b)
      = convertPart_Array_loop (convertPart_Array_loop child a) b := by
  induction a with
  | nil => intro child; simp [convertPart_Array_loop_nil]
  | cons e rest ih =>
    intro child
    obtain ⟨k, d⟩ := e
    simp only [List.cons_append, convertPart_Array_loop_cons, ih]

/-- C3 (counterexample): under a key, the three-entry container
`[(0, 1), (1, object), (2, 3)]` gives an array frame with the two child elements
`"0"` and `"2"`; the child elements are not the entries of the container. -/
theorem convertPart_Array_object_entry :
    convertPart_Array bson_new [107, 0]
        [(.int 0, .int64 1), (.int 1, .object 7), (.int 2, .int64 3)]
      = ⟨[([107], .array [([48], .int64 1), ([50], .int64 3)])], none⟩
    ∧ ((convertPart_Array_loop bson_new
          [(.int 0, .int64 1), (.int 1, .object 7), (.int 2, .int64 3)]).elems).map Prod.fst
      ≠ [(Key.int 0, Variant.int64 1), (Key.int 1, Variant.object 7),
          (Key.int 2, Variant.int64 3)].map (fun e => e.1.toString) := by
  refine ⟨rfl, ?_⟩
  decide

/-- C3 (amended): for every container `c` encoded under a key, the one element
appended to the parent has the C string at the key as its key, carries the
array tag if `_isPackedArray c` and the document tag otherwise, and its child
elements are the encodings of the entries of `c` in order, an object entry
giving none and every other entry one element under the string form of its
key up to a first zero byte. The containers `[(0,1),(1,2),(2,3)]` and
`[(0,"a"),(2,"b")]` give the array and the document frame of the examples. -/
theorem convertPart_Array_frame (bson : bson_t) (key : CStr) (c : ArrayData) :
    convertPart_Array bson key c
        = ⟨bson.elems ++ [(c_string key,
            if _isPackedArray c then bson_value.array (convertPart_Array_loop bson_new c).elems
            else bson_value.document (convertPart_Array_loop bson_new c).elems)], none⟩
    ∧ (convertPart_Array_loop bson_new c).elems
        = c.flatMap (fun e => (convertPart_Variant bson_new e.1.toString.c_str e.2).elems)
    ∧ ((convertPart_Array_loop bson_new c).elems).map Prod.fst
        = (c.filter (fun e => !e.2.isObject)).map (fun e => c_string e.1.toString)
    ∧ convertPart_Array bson_new [107, 0] [(.int 0, .int64 1), (.int 1, .int64 2), (.int 2, .int64 3)]
        = ⟨[([107], .array [([48], .int64 1), ([49], .int64 2), ([50], .int64 3)])], none⟩
    ∧ convertPart_Array bson_new [107, 0] [(.int 0, .string [97]), (.int 2, .string [98])]
        = ⟨[([107], .document [([48], .utf8 [97]), ([50], .utf8 [98])])], none⟩ :=
  ⟨convertPart_Variant_array bson key c, convertPart_Array_loop_flatMap c,
    convertPart_Array_loop_keys c, rfl, rfl⟩

/-- C5 (counterexample): the root `[("a", object)]` has one entry and `convert`
appends no element for it. -/
theorem convert_root_object_entry :
    (VariantToBsonConverter.new (.array [(.str [97], .object 7)])).convert bson_new = bson_new
    ∧ ((VariantToBsonConverter.new (.array [(.str [97], .object 7)])).convert bson_new).elems.length
        ≠ [(Key.str [97], Variant.object 7)].length := by
  refine ⟨rfl, ?_⟩
  decide

/-- C5 (amended): for every root container, `convert(bson)` appends, after the
elements already in the builder, the encodings of the root's entries in the
root's order and nothing else: an object entry gives no element, every other
entry one element under the string form of its key up to a first zero byte.
The root is never wrapped in a frame, whatever its classification. The root
`[("tags", [("name", "x")])]` gives the one element `"tags"` holding a
sub-document with `"name" -> "x"`. -/
theorem convert_root_elements (bson : bson_t) (root : ArrayData) :
    ((VariantToBsonConverter.new (.array root)).convert bson).elems
        = bson.elems
          ++ root.flatMap (fun e => (convertPart_Variant bson_new e.1.toString.c_str e.2).elems)
    ∧ (root.flatMap (fun e => (convertPart_Variant bson_new e.1.toString.c_str e.2).elems)).map
          Prod.fst
        = (root.filter (fun e => !e.2.isObject)).map (fun e => c_string e.1.toString)
    ∧ (VariantToBsonConverter.new
          (.array [(.str [116, 97, 103, 115], .array [(.str [110, 97, 109, 101], .string [120])])])).convert
          bson_new
        = ⟨[([116, 97, 103, 115], .document [([110, 97, 109, 101], .utf8 [120])])], none⟩ := by
  refine ⟨?_, ?_, rfl⟩
  · simp only [VariantToBsonConverter.convert, VariantToBsonConverter.new, convert_Variant,
      convert_Array_eq_loop]
    rw [convertPart_Array_loop_elems, convertPart_Array_loop_flatMap]
  · rw [← convertPart_Array_loop_flatMap, convertPart_Array_loop_keys]

/-- C10 (counterexample): the string key `"a\0b"` is not emitted as is: the
element key is `"a"`. -/
theorem convert_Array_key_with_zero_byte :
    ((convert_Array bson_new [(.str [97, 0, 98], .null)]).elems).map Prod.fst = [[97]]
    ∧ ((convert_Array bson_new [(.str [97, 0, 98], .null)]).elems).map Prod.fst
        ≠ [(Key.str [97, 0, 98], Variant.null)].map (fun e => e.1.toString) := by
  refine ⟨rfl, ?_⟩
  decide

/-- C10 (amended): for every container without object entries, nested or
root, the emitted elements correspond one to one and in order to the entries,
and the key of the i-th element is the string form of the i-th entry's key up
to a first zero byte: an integer key, negative ones included, gives its
decimal ASCII rendering, a string key without a zero byte is emitted as is. -/
theorem entries_emitted_in_order (bson : bson_t) (c : ArrayData)
    (h : c.all (fun e => !e.2.isObject) = true) :
    (convertPart_Array_loop bson c).elems
        = bson.elems ++ (convertPart_Array_loop bson_new c).elems
    ∧ (convert_Array bson c).elems = bson.elems ++ (convertPart_Array_loop bson_new c).elems
    ∧ ((convertPart_Array_loop bson_new c).elems).length = c.length
    ∧ ((convertPart_Array_loop bson_new c).elems).map Prod.fst
        = c.map (fun e => c_string e.1.toString)
    ∧ (∀ k : Int, c_string (Key.int k).toString = int64ToString k)
    ∧ (∀ s : StringData, s.all (fun b => b != 0) = true → c_string (Key.str s).toString = s)
    ∧ int64ToString (-12) = [45, 49, 50] := by
  have hc : ∀ e ∈ c, e.2.isObject = false := by
    intro e he
    have := List.all_eq_true.mp h e he
    simpa using this
  have hkeys : ((convertPart_Array_loop bson_new c).elems).map Prod.fst
      = c.map (fun e => c_string e.1.toString) := by
    rw [convertPart_Array_loop_keys, filter_not_isObject_of_none c hc]
  refine ⟨convertPart_Array_loop_elems c bson, ?_, ?_, hkeys, ?_, ?_, by decide⟩
  · rw [convert_Array_eq_loop, convertPart_Array_loop_elems]
  · have := congrArg List.length hkeys
    simpa using this
  · intro k
    exact c_string_of_no_zero _ (int64ToString_no_zero k)
  · intro s hs
    apply c_string_of_no_zero
    intro b hb
    have := List.all_eq_true.mp hs b hb
    simpa using this

/-- Witness for C10 at the container `[(-12, null), ("a", 5)]`. -/
theorem entries_emitted_in_order_witness :
    [(Key.int (-12), Variant.null), (Key.str [97], Variant.int64 5)].all
        (fun e => !e.2.isObject) = true
    ∧ ((convert_Array bson_new [(.int (-12), .null), (.str [97], .int64 5)]).elems
        = bson_new.elems
          ++ (convertPart_Array_loop bson_new [(.int (-12), .null), (.str [97], .int64 5)]).elems)
    ∧ ((convertPart_Array_loop bson_new [(.int (-12), .null), (.str [97], .int64 5)]).elems).map
          Prod.fst
        = [(Key.int (-12), Variant.null), (Key.str [97], Variant.int64 5)].map
            (fun e => c_string e.1.toString) :=
  have w := entries_emitted_in_order bson_new
    [(.int (-12), .null), (.str [97], .int64 5)] rfl
  ⟨rfl, w.2.1, w.2.2.2.1⟩

/-! ## Objects and scalar roots -/

/-- C6 (counterexample): converting an object root returns, with the builder
unchanged; it does not fail with `UnsupportedType`. -/
theorem call_object_root_returns :
    (VariantToBsonConverter.new (.object 7)).call bson_new = Outcome.returned bson_new
    ∧ (VariantToBsonConverter.new (.object 7)).call bson_new
        ≠ Outcome.failed EncodeError.UnsupportedType := by
  refine ⟨rfl, ?_⟩
  simp [VariantToBsonConverter.call]

/-- C6 (amended): no conversion fails: every call of `convert` returns, also
when the input holds an object at some position. An object root leaves the
builder unchanged, and an object entry leaves no element for its key in its
parent frame: the entries of a container with an object entry are written
exactly as with that entry removed. -/
theorem object_leaves_no_element (self : VariantToBsonConverter) (bson : bson_t) (key : CStr)
    (o : Nat) (k : Key) (before after : ArrayData) :
    self.call bson = Outcome.returned (self.convert bson)
    ∧ (∀ e : EncodeError, self.call bson ≠ Outcome.failed e)
    ∧ (VariantToBsonConverter.new (.object o)).call bson = Outcome.returned bson
    ∧ convertPart_Variant bson key (.object o) = bson
    ∧ convertPart_Array_loop bson (before ++ (k, .object o) :: after)
        = convertPart_Array_loop bson (before ++ after)
    ∧ convert_Array bson (before ++ (k, .object o) :: after)
        = convert_Array bson (before ++ after) := by
  have hloop : convertPart_Array_loop bson (before ++ (k, .object o) :: after)
      = convertPart_Array_loop bson (before ++ after) := by
    rw [convertPart_Array_loop_append, convertPart_Array_loop_append,
      convertPart_Array_loop_cons, convertPart_Variant_object _ _ (.object o) rfl]
  refine ⟨rfl, ?_, rfl, convertPart_Variant_object _ _ (.object o) rfl, hloop, ?_⟩
  · intro e
    simp [VariantToBsonConverter.call]
  · rw [convert_Array_eq_loop, convert_Array_eq_loop, hloop]

/-- C7 (counterexample): converting the scalar root `Int64 5` returns, with the
builder unchanged; it does not fail with `InvalidRoot`. -/
theorem call_scalar_root_returns :
    (VariantToBsonConverter.new (.int64 5)).call bson_new = Outcome.returned bson_new
    ∧ (VariantToBsonConverter.new (.int64 5)).call bson_new
        ≠ Outcome.failed EncodeError.InvalidRoot := by
  refine ⟨rfl, ?_⟩
  simp [VariantToBsonConverter.call]

/-- C7 (amended): for every scalar root (`Uninit`, `Null`, boolean, `Int64`,
double or string), `convert` returns without error and leaves the builder as
it was; a call changes the builder only for a container root. -/
theorem call_scalar_root (bson : bson_t) (doc : Variant) :
    (VariantToBsonConverter.new .uninit).call bson = Outcome.returned bson
    ∧ (VariantToBsonConverter.new .null).call bson = Outcome.returned bson
    ∧ (∀ b : Bool, (VariantToBsonConverter.new (.boolean b)).call bson = Outcome.returned bson)
    ∧ (∀ n : Int, (VariantToBsonConverter.new (.int64 n)).call bson = Outcome.returned bson)
    ∧ (∀ d : Nat, (VariantToBsonConverter.new (.double d)).call bson = Outcome.returned bson)
    ∧ (∀ s : StringData,
        (VariantToBsonConverter.new (.string s)).call bson = Outcome.returned bson)
    ∧ (doc.isArray = true
        ∨ (VariantToBsonConverter.new doc).call bson = Outcome.returned bson) := by
  refine ⟨rfl, rfl, fun _ => rfl, fun _ => rfl, fun _ => rfl, fun _ => rfl, ?_⟩
  cases doc with
  | array a => exact Or.inl rfl
  | _ => exact Or.inr rfl

/-! ## The keys of array frames -/

theorem bson_new_elems : bson_new.elems = [] := rfl

theorem toInt32_of_fits (k : Int) (h1 : -2147483648 ≤ k) (h2 : k < 2147483648) :
    toInt32 k = k := by
  unfold toInt32
  omega

theorem keysAreIndices_of_packed (a : ArrayData) : ∀ idx : Nat,
    a.all (fun e => e.1.fitsInt32) = true → _isPackedArray_loop idx a = true →
    keysAreIndices idx a = true := by
  induction a with
  | nil => intro idx _ _; rfl
  | cons e rest ih =>
    intro idx hfit hp
    obtain ⟨k, d⟩ := e
    cases k with
    | str s => simp [_isPackedArray_loop, Key.isInteger] at hp
    | int k =>
      simp only [List.all_cons, Bool.and_eq_true, Key.fitsInt32, decide_eq_true_eq] at hfit
      simp only [_isPackedArray_loop, Key.isInteger, Bool.not_true, Bool.false_eq_true,
        if_false, ne_eq, ite_not] at hp
      rw [toInt32_of_fits k hfit.1.1 hfit.1.2] at hp
      by_cases hk : (idx : Int) = k
      · simp only [hk, if_true] at hp
        simp [keysAreIndices, hk, ih (idx + 1) hfit.2 hp]
      · simp [hk] at hp

theorem convertPart_Variant_single (v : Variant) (key : CStr) (h : v.isObject = false) :
    ∃ val : bson_value, (convertPart_Variant bson_new key v).elems = [(c_string key, val)] := by
  have hk := convertPart_Variant_key v key h
  match hv : (convertPart_Variant bson_new key v).elems with
  | [] => rw [hv] at hk; simp at hk
  | [(k, val)] =>
    rw [hv] at hk
    simp at hk
    exact ⟨val, by rw [hk]⟩
  | _ :: _ :: _ => rw [hv] at hk; simp at hk

theorem arrayKeysFrom_of_indices (a : ArrayData) : ∀ idx : Nat,
    a.all (fun e => !e.2.isObject) = true → keysAreIndices idx a = true →
    arrayKeysFrom idx (convertPart_Array_loop bson_new a).elems = true := by
  induction a with
  | nil => intro idx _ _; simp [convertPart_Array_loop_nil, bson_new, arrayKeysFrom]
  | cons e rest ih =>
    intro idx hobj hk
    obtain ⟨k, d⟩ := e
    simp only [List.all_cons, Bool.and_eq_true, Bool.not_eq_true'] at hobj
    simp only [keysAreIndices, Bool.and_eq_true, decide_eq_true_eq] at hk
    obtain ⟨val, hval⟩ := convertPart_Variant_single d k.toString.c_str hobj.1
    rw [convertPart_Array_loop_cons, convertPart_Array_loop_elems, hval]
    have hkey : c_string k.toString.c_str = int64ToString idx := by
      rw [c_string_c_str, hk.1]
      exact c_string_of_no_zero _ (int64ToString_no_zero _)
    simp only [List.singleton_append, arrayKeysFrom, hkey, decide_True, Bool.true_and]
    exact ih (idx + 1) (by simpa using hobj.2) hk.2

theorem bodyArrayKeysOk_append (l1 l2 : List (StringData × bson_value)) :
    bodyArrayKeysOk (l1 ++ l2) = (bodyArrayKeysOk l1 && bodyArrayKeysOk l2) := by
  induction l1 with
  | nil => simp [bodyArrayKeysOk]
  | cons e rest ih =>
    obtain ⟨k, v⟩ := e
    simp [bodyArrayKeysOk, ih, Bool.and_assoc]

theorem entriesPlain32_direct (a : ArrayData) (h : entriesPlain32 a = true) :
    a.all (fun e => e.1.fitsInt32) = true ∧ a.all (fun e => !e.2.isObject) = true := by
  induction a with
  | nil => simp
  | cons e rest ih =>
    obtain ⟨k, d⟩ := e
    simp only [entriesPlain32, Bool.and_eq_true] at h
    have hd : d.isObject = false := by
      cases d <;> simp [Variant.plain32, Variant.isObject] at h ⊢
    simp [h.1.1, hd, ih h.2]

mutual
theorem plain32_value_ok : ∀ (v : Variant) (key : CStr), v.plain32 = true →
    bodyArrayKeysOk (convertPart_Variant bson_new key v).elems = true
  | .uninit, key, _ => by
    simp [convertPart_Variant, convertPart_null, bson_append_null, bson_append, bson_new,
      bodyArrayKeysOk, bson_value.arrayKeysOk]
  | .null, key, _ => by
    simp [convertPart_Variant, convertPart_null, bson_append_null, bson_append, bson_new,
      bodyArrayKeysOk, bson_value.arrayKeysOk]
  | .boolean b, key, _ => by
    simp [convertPart_Variant, convertPart_bool, bson_append_bool, bson_append, bson_new,
      bodyArrayKeysOk, bson_value.arrayKeysOk]
  | .int64 n, key, _ => by
    simp [convertPart_Variant, convertPart_int64, bson_append_int64, bson_append, bson_new,
      bodyArrayKeysOk, bson_value.arrayKeysOk]
  | .double d, key, _ => by
    simp [convertPart_Variant, convertPart_double, bson_append_double, bson_append, bson_new,
      bodyArrayKeysOk, bson_value.arrayKeysOk]
  | .string s, key, _ => by
    simp [convertPart_Variant, convertPart_String, bson_append_utf8, bson_append, bson_new,
      bodyArrayKeysOk, bson_value.arrayKeysOk]
  | .object o, key, _ => by
    simp [convertPart_Variant, convertPart_Object, bson_new, bodyArrayKeysOk]
  | .array a, key, h => by
    have ha : entriesPlain32 a = true := by simpa [Variant.plain32] using h
    have hbody := plain32_entries_ok a ha
    have hdirect := entriesPlain32_direct a ha
    rw [convertPart_Variant_array]
    by_cases hp : _isPackedArray a = true
    · have hidx := keysAreIndices_of_packed a 0 hdirect.1 hp
      have hkeys := arrayKeysFrom_of_indices a 0 hdirect.2 hidx
      simp [hp, bson_new_elems, bodyArrayKeysOk, bson_value.arrayKeysOk, hkeys, hbody]
    · simp [hp, bson_new_elems, bodyArrayKeysOk, bson_value.arrayKeysOk, hbody]
theorem plain32_entries_ok : ∀ (a : List (Key × Variant)), entriesPlain32 a = true →
    bodyArrayKeysOk (convertPart_Array_loop bson_new a).elems = true
  | [], _ => by simp [convertPart_Array_loop_nil, bson_new, bodyArrayKeysOk]
  | (k, d) :: rest, h => by
    simp only [entriesPlain32, Bool.and_eq_true] at h
    rw [convertPart_Array_loop_cons, convertPart_Array_loop_elems, bodyArrayKeysOk_append,
      plain32_value_ok d _ h.1.2, plain32_entries_ok rest h.2]
    rfl
end

/-- C4 (counterexample): nested under a key, the container
`[(0, 1), (1, object), (2, 3)]` is emitted as an array frame whose two elements
have the keys `"0"` and `"2"`, not `"0"` and `"1"`. -/
theorem array_frame_with_gap :
    convertPart_Variant bson_new [107, 0]
        (.array [(.int 0, .int64 1), (.int 1, .object 7), (.int 2, .int64 3)])
      = ⟨[([107], .array [([48], .int64 1), ([50], .int64 3)])], none⟩
    ∧ bodyArrayKeysOk (convertPart_Variant bson_new [107, 0]
        (.array [(.int 0, .int64 1), (.int 1, .object 7), (.int 2, .int64 3)])).elems = false := by
  refine ⟨rfl, ?_⟩
  decide

/-- C4 (amended): for every input value that holds no object and whose integer
keys all lie in the range of a 32 bit `int`, every array frame that the encoder
emits, at any depth, has the keys `"0", "1", ..., "n-1"` in order, `n` being
the number of elements written into the frame; this holds for an entry
encoded under a key and for a whole root. -/
theorem array_frames_have_index_keys (doc : Variant) (bson : bson_t) (key : CStr)
    (h : doc.plain32 = true) (hb : bodyArrayKeysOk bson.elems = true) :
    bodyArrayKeysOk (convertPart_Variant bson key doc).elems = true
    ∧ bodyArrayKeysOk ((VariantToBsonConverter.new doc).convert bson).elems = true := by
  constructor
  · rw [convertPart_Variant_elems, bodyArrayKeysOk_append, hb, plain32_value_ok doc key h]
    rfl
  · cases doc with
    | array a =>
      have ha : entriesPlain32 a = true := by simpa [Variant.plain32] using h
      simp only [VariantToBsonConverter.convert, VariantToBsonConverter.new, convert_Variant,
        convert_Array_eq_loop]
      rw [convertPart_Array_loop_elems, bodyArrayKeysOk_append, hb, plain32_entries_ok a ha]
      rfl
    | _ => simpa [VariantToBsonConverter.convert, VariantToBsonConverter.new, convert_Variant]
        using hb

/-- Witness for C4 at the root `[("a", [(0, [(0, null)]), (1, "x")])]`. -/
theorem array_frames_have_index_keys_witness :
    (Variant.array [(.str [97], .array [(.int 0, .array [(.int 0, .null)]),
        (.int 1, .string [120])])]).plain32 = true
    ∧ bodyArrayKeysOk ((VariantToBsonConverter.new
        (.array [(.str [97], .array [(.int 0, .array [(.int 0, .null)]),
          (.int 1, .string [120])])])).convert bson_new).elems = true :=
  ⟨by decide, (array_frames_have_index_keys
    (.array [(.str [97], .array [(.int 0, .array [(.int 0, .null)]),
      (.int 1, .string [120])])]) bson_new [] (by decide) (by decide)).2⟩

/-! ## Round trip through the companion decoder -/

theorem isPackedArray_loop_of_indices (a : ArrayData) : ∀ idx : Nat,
    keysAreIndices idx a = true → idx + a.length ≤ 2147483648 →
    _isPackedArray_loop idx a = true := by
  induction a with
  | nil => intro idx _ _; rfl
  | cons e rest ih =>
    intro idx hk hlen
    obtain ⟨k, d⟩ := e
    simp only [keysAreIndices, Bool.and_eq_true, decide_eq_true_eq] at hk
    simp only [List.length_cons] at hlen
    have h32 : toInt32 (idx : Int) = (idx : Int) := toInt32_of_fits _ (by omega) (by omega)
    rw [hk.1]
    simp only [_isPackedArray_loop, Key.isInteger, Bool.not_true, Bool.false_eq_true, if_false,
      h32, ne_eq, not_true_eq_false]
    exact ih (idx + 1) hk.2 (by omega)

theorem isPackedArray_of_names (a : ArrayData) (h : keysAreNames a = true) (hne : a ≠ []) :
    _isPackedArray a = false := by
  cases a with
  | nil => exact absurd rfl hne
  | cons e rest =>
    obtain ⟨k, d⟩ := e
    cases k with
    | int k => simp [keysAreNames] at h
    | str s => simp [_isPackedArray, _isPackedArray_loop, Key.isInteger]

theorem decodeArray_of_indices (a : ArrayData) :
    ∀ (body : List (StringData × bson_value)) (idx : Nat),
    body.map (fun e => decodeValue e.2) = a.map Prod.snd → keysAreIndices idx a = true →
    decodeArray idx body = a := by
  induction a with
  | nil =>
    intro body idx hv _
    have : body = [] := by simpa using hv
    subst this
    simp [decodeArray]
  | cons e rest ih =>
    intro body idx hv hk
    obtain ⟨k, d⟩ := e
    cases body with
    | nil => simp at hv
    | cons b body =>
      obtain ⟨bk, bv⟩ := b
      simp only [List.map_cons, List.cons.injEq] at hv
      simp only [keysAreIndices, Bool.and_eq_true, decide_eq_true_eq] at hk
      simp only [decodeArray, hv.1, hk.1, ih body (idx + 1) hv.2 hk.2]

theorem decodeDocument_of_names (a : ArrayData) :
    ∀ (body : List (StringData × bson_value)),
    body.map Prod.fst = a.map (fun e => c_string e.1.toString) →
    body.map (fun e => decodeValue e.2) = a.map Prod.snd → keysAreNames a = true →
    decodeDocument body = a := by
  induction a with
  | nil =>
    intro body hkeys _ _
    have : body = [] := by simpa using hkeys
    subst this
    simp [decodeDocument]
  | cons e rest ih =>
    intro body hkeys hv hn
    obtain ⟨k, d⟩ := e
    cases body with
    | nil => simp at hv
    | cons b body =>
      obtain ⟨bk, bv⟩ := b
      cases k with
      | int k => simp [keysAreNames] at hn
      | str s =>
        simp only [List.map_cons, List.cons.injEq] at hv hkeys
        simp only [keysAreNames, Bool.and_eq_true] at hn
        have hs : c_string s = s := by
          apply c_string_of_no_zero
          intro b hb
          have := List.all_eq_true.mp hn.1 b hb
          simpa using this
        simp only [Key.toString, hs] at hkeys
        simp only [decodeDocument, hv.1, hkeys.1, ih body hkeys.2 hv.2 hn.2]

theorem entriesRoundTripShape_no_object (a : ArrayData) (h : entriesRoundTripShape a = true) :
    ∀ e ∈ a, e.2.isObject = false := by
  induction a with
  | nil => simp
  | cons e rest ih =>
    obtain ⟨k, d⟩ := e
    simp only [entriesRoundTripShape, Bool.and_eq_true] at h
    have hd : d.isObject = false := by
      cases d <;> simp [Variant.roundTripShape, Variant.isObject] at h ⊢
    intro e he
    rcases List.mem_cons.mp he with rfl | he
    · exact hd
    · exact ih h.2 e he

theorem convertPart_Array_loop_names (a : ArrayData) (h : entriesRoundTripShape a = true) :
    ((convertPart_Array_loop bson_new a).elems).map Prod.fst
      = a.map (fun e => c_string e.1.toString) := by
  rw [convertPart_Array_loop_keys,
    filter_not_isObject_of_none a (entriesRoundTripShape_no_object a h)]

mutual
theorem decode_value_of_shape : ∀ (v : Variant) (key : CStr), v.roundTripShape = true →
    ((convertPart_Variant bson_new key v).elems).map (fun e => decodeValue e.2) = [v]
  | .uninit, key, h => by simp [Variant.roundTripShape] at h
  | .object o, key, h => by simp [Variant.roundTripShape] at h
  | .null, key, _ => by
    simp [convertPart_Variant, convertPart_null, bson_append_null, bson_append, bson_new,
      decodeValue]
  | .boolean b, key, _ => by
    simp [convertPart_Variant, convertPart_bool, bson_append_bool, bson_append, bson_new,
      decodeValue]
  | .int64 n, key, _ => by
    simp [convertPart_Variant, convertPart_int64, bson_append_int64, bson_append, bson_new,
      decodeValue]
  | .double d, key, _ => by
    simp [convertPart_Variant, convertPart_double, bson_append_double, bson_append, bson_new,
      decodeValue]
  | .string s, key, _ => by
    simp only [convertPart_Variant, convertPart_String, bson_append_utf8, bson_append,
      take_size_c_str, bson_new_elems, List.nil_append, List.map_cons, List.map_nil, decodeValue]
  | .array a, key, h => by
    simp only [Variant.roundTripShape, Bool.and_eq_true, Bool.or_eq_true,
      decide_eq_true_eq] at h
    have hvals := decode_entries_of_shape a h.2
    have hkeys := convertPart_Array_loop_names a h.2
    rw [convertPart_Variant_array]
    simp only [bson_new_elems, List.nil_append, List.map_cons, List.map_nil, List.cons.injEq,
      and_true]
    rcases h.1 with hidx | hnames
    · have hp : _isPackedArray a = true :=
        isPackedArray_loop_of_indices a 0 hidx.1 (by omega)
      simp only [hp, if_true, decodeValue,
        decodeArray_of_indices a _ 0 hvals hidx.1]
    · by_cases hne : a = []
      · subst hne
        simp [_isPackedArray, _isPackedArray_loop, convertPart_Array_loop_nil, bson_new_elems,
          decodeValue, decodeArray]
      · have hp : _isPackedArray a = false := isPackedArray_of_names a hnames hne
        simp only [hp, Bool.false_eq_true, if_false, decodeValue,
          decodeDocument_of_names a _ hkeys hvals hnames]
theorem decode_entries_of_shape : ∀ (a : List (Key × Variant)), entriesRoundTripShape a = true →
    ((convertPart_Array_loop bson_new a).elems).map (fun e => decodeValue e.2) = a.map Prod.snd
  | [], _ => by simp [convertPart_Array_loop_nil, bson_new_elems]
  | (k, d) :: rest, h => by
    simp only [entriesRoundTripShape, Bool.and_eq_true] at h
    rw [convertPart_Array_loop_cons, convertPart_Array_loop_elems, List.map_append,
      decode_value_of_shape d _ h.1, decode_entries_of_shape rest h.2]
    rfl
end

/-- C2 (counterexample): the root `[(0, null)]` is encoded as the document with
the one element `"0"`, which decodes to `[("0", null)]`: the integer key comes
back as a string key. -/
theorem decode_convert_integer_key :
    decode ((VariantToBsonConverter.new (.array [(.int 0, .null)])).convert bson_new)
      = .array [(.str [48], .null)]
    ∧ decode ((VariantToBsonConverter.new (.array [(.int 0, .null)])).convert bson_new)
      ≠ .array [(.int 0, .null)] := by
  have h : decode ((VariantToBsonConverter.new (.array [(.int 0, .null)])).convert bson_new)
      = .array [(.str [48], .null)] := rfl
  refine ⟨h, ?_⟩
  rw [h]
  simp

/-- C2 (amended): round trip for every root container built from `Null`,
booleans, `Int64`, doubles, strings and containers, in which the root has only
string keys, every nested container has either only string keys or exactly the
integer keys `0, ..., n-1` (with `n ≤ 2^31`), and no string key holds a zero
byte: decoding the document produced by `convert` gives back the root, keys
included, at every depth. -/
theorem decode_convert_round_trip (root : ArrayData) (hk : keysAreNames root = true)
    (hs : entriesRoundTripShape root = true) :
    decode ((VariantToBsonConverter.new (.array root)).convert bson_new) = .array root := by
  simp only [decode, VariantToBsonConverter.convert, VariantToBsonConverter.new, convert_Variant,
    convert_Array_eq_loop]
  rw [decodeDocument_of_names root _ (convertPart_Array_loop_names root hs)
    (decode_entries_of_shape root hs) hk]

/-- Witness for C2 at the root
`[("tags", [(0, [("dc", "ny")]), (1, [])]), ("n", 5)]`. -/
theorem decode_convert_round_trip_witness :
    keysAreNames [(.str [116, 97, 103, 115],
        .array [(.int 0, .array [(.str [100, 99], .string [110, 121])]), (.int 1, .array [])]),
      (.str [110], .int64 5)] = true
    ∧ decode ((VariantToBsonConverter.new (.array [(.str [116, 97, 103, 115],
        .array [(.int 0, .array [(.str [100, 99], .string [110, 121])]), (.int 1, .array [])]),
      (.str [110], .int64 5)])).convert bson_new)
      = .array [(.str [116, 97, 103, 115],
        .array [(.int 0, .array [(.str [100, 99], .string [110, 121])]), (.int 1, .array [])]),
      (.str [110], .int64 5)] :=
  ⟨by decide, decode_convert_round_trip _ (by decide) (by decide)⟩

/-! ## The empty container and string keys -/

/-- C11: the classifier returns true for the empty container, so an empty
container nested under a key is emitted as an array-framed element without
child elements, not as an empty sub-document. -/
theorem isPackedArray_empty (bson : bson_t) (key : CStr) :
    _isPackedArray [] = true
    ∧ convertPart_Array bson key [] = ⟨bson.elems ++ [(c_string key, .array [])], none⟩
    ∧ convertPart_Variant bson key (.array [])
        = ⟨bson.elems ++ [(c_string key, .array [])], none⟩ := by
  have h : convertPart_Variant bson key (.array [])
      = ⟨bson.elems ++ [(c_string key, .array [])], none⟩ := by
    rw [convertPart_Variant_array]
    simp [_isPackedArray, _isPackedArray_loop, convertPart_Array_loop_nil, bson_new_elems]
  exact ⟨rfl, h, h⟩

theorem isPackedArray_loop_string_key (s : StringData) (v : Variant) (after : ArrayData)
    (before : ArrayData) : ∀ idx : Nat,
    _isPackedArray_loop idx (before ++ (Key.str s, v) :: after) = false := by
  induction before with
  | nil => intro idx; simp [_isPackedArray_loop, Key.isInteger]
  | cons e rest ih =>
    intro idx
    obtain ⟨k, d⟩ := e
    cases k with
    | str t => simp [_isPackedArray_loop, Key.isInteger]
    | int n =>
      simp [_isPackedArray_loop, Key.isInteger, ih]

/-- C12: for every container that has a string key at some position among its
entries, whatever stands before and after it, the classifier returns false. -/
theorem isPackedArray_string_key (before after : ArrayData) (s : StringData) (v : Variant) :
    _isPackedArray (before ++ (Key.str s, v) :: after) = false :=
  isPackedArray_loop_string_key s v after before 0

/-! ## Matched frames -/

mutual
theorem classifyOnce_value : ∀ (v : Variant) (bson : bson_t) (key : CStr),
    convertPart_Variant_classifyOnce bson key v = convertPart_Variant bson key v
  | .uninit, bson, key => by simp [convertPart_Variant_classifyOnce, convertPart_Variant]
  | .null, bson, key => by simp [convertPart_Variant_classifyOnce, convertPart_Variant]
  | .boolean b, bson, key => by simp [convertPart_Variant_classifyOnce, convertPart_Variant]
  | .int64 n, bson, key => by simp [convertPart_Variant_classifyOnce, convertPart_Variant]
  | .double d, bson, key => by simp [convertPart_Variant_classifyOnce, convertPart_Variant]
  | .string s, bson, key => by simp [convertPart_Variant_classifyOnce, convertPart_Variant]
  | .object o, bson, key => by simp [convertPart_Variant_classifyOnce, convertPart_Variant]
  | .array a, bson, key => by
    rw [convertPart_Variant_classifyOnce, convertPart_Variant]
    cases hp : _isPackedArray a
    · simp only [Bool.false_eq_true, if_false]
      rw [classifyOnce_entries a]
    · simp only [if_true]
      rw [classifyOnce_entries a]
theorem classifyOnce_entries : ∀ (a : List (Key × Variant)) (child : bson_t),
    convertPart_Array_loop_classifyOnce child a = convertPart_Array_loop child a
  | [], child => by
    rw [convertPart_Array_loop_classifyOnce, convertPart_Array_loop_nil]
  | (k, d) :: rest, child => by
    rw [convertPart_Array_loop_classifyOnce, convertPart_Array_loop_cons,
      classifyOnce_value d, classifyOnce_entries rest]
end

mutual
theorem framesMatch_value : ∀ (v : Variant) (stack : List frame_kind) (rest : List frame_call),
    framesMatch stack (convertPart_Variant_frames v ++ rest) = framesMatch stack rest
  | .uninit, stack, rest => by simp [convertPart_Variant_frames]
  | .null, stack, rest => by simp [convertPart_Variant_frames]
  | .boolean b, stack, rest => by simp [convertPart_Variant_frames]
  | .int64 n, stack, rest => by simp [convertPart_Variant_frames]
  | .double d, stack, rest => by simp [convertPart_Variant_frames]
  | .string s, stack, rest => by simp [convertPart_Variant_frames]
  | .object o, stack, rest => by simp [convertPart_Variant_frames]
  | .array a, stack, rest => by
    have e : ∀ kind : frame_kind,
        ([frame_call.opened kind] ++ convertPart_Array_loop_frames a
            ++ [frame_call.closed kind]) ++ rest
          = frame_call.opened kind
              :: (convertPart_Array_loop_frames a ++ (frame_call.closed kind :: rest)) := by
      intro kind
      simp
    rw [convertPart_Variant_frames]
    cases hp : _isPackedArray a
    · simp only [Bool.false_eq_true, if_false]
      rw [e, framesMatch, framesMatch_entries a, framesMatch]
      simp
    · simp only [if_true]
      rw [e, framesMatch, framesMatch_entries a, framesMatch]
      simp
theorem framesMatch_entries : ∀ (a : List (Key × Variant)) (stack : List frame_kind)
    (rest : List frame_call),
    framesMatch stack (convertPart_Array_loop_frames a ++ rest) = framesMatch stack rest
  | [], stack, rest => by simp [convertPart_Array_loop_frames]
  | (k, d) :: tail, stack, rest => by
    rw [convertPart_Array_loop_frames, List.append_assoc, framesMatch_value d,
      framesMatch_entries tail]
end

/-- C13: matched framing. For every value and at every depth, each end call of
the encoder closes the frame with the kind that the matching begin call
opened it with, although `_isPackedArray` is run a second time after the
children are written; and the encoder equals the encoder that runs the
classifier once and uses the one result to open and to close. -/
theorem frames_are_matched (bson : bson_t) (key : CStr) (v : Variant) (c : ArrayData) :
    framesMatch [] (convertPart_Variant_frames v) = true
    ∧ convertPart_Variant bson key v = convertPart_Variant_classifyOnce bson key v
    ∧ convertPart_Array bson key c = convertPart_Variant_classifyOnce bson key (.array c)
    ∧ framesMatch [] (convertPart_Variant_frames
        (.array [(.int 0, .array [(.str [97], .array [])]), (.int 2, .array [])]))
      = true := by
  refine ⟨?_, (classifyOnce_value v bson key).symm, ?_, by decide⟩
  · have h := framesMatch_value v [] []
    simpa [framesMatch] using h
  · rw [convertPart_Array, classifyOnce_value]

/-! ## Termination and recursion depth -/

mutual
theorem limited_value : ∀ (v : Variant) (limit : Nat) (bson : bson_t) (key : CStr),
    convertPart_Variant_limited bson key v limit
      = if v.nestingDepth ≤ limit then some (convertPart_Variant bson key v) else none
  | .uninit, limit, bson, key => by
    simp [convertPart_Variant_limited, convertPart_Variant, Variant.nestingDepth]
  | .null, limit, bson, key => by
    simp [convertPart_Variant_limited, convertPart_Variant, Variant.nestingDepth]
  | .boolean b, limit, bson, key => by
    simp [convertPart_Variant_limited, convertPart_Variant, Variant.nestingDepth]
  | .int64 n, limit, bson, key => by
    simp [convertPart_Variant_limited, convertPart_Variant, Variant.nestingDepth]
  | .double d, limit, bson, key => by
    simp [convertPart_Variant_limited, convertPart_Variant, Variant.nestingDepth]
  | .string s, limit, bson, key => by
    simp [convertPart_Variant_limited, convertPart_Variant, Variant.nestingDepth]
  | .object o, limit, bson, key => by
    simp [convertPart_Variant_limited, convertPart_Variant, Variant.nestingDepth]
  | .array a, 0, bson, key => by
    simp [convertPart_Variant_limited, Variant.nestingDepth]
  | .array a, limit + 1, bson, key => by
    rw [convertPart_Variant_limited, convertPart_Variant]
    simp only [limited_entries a limit, Variant.nestingDepth, Nat.add_le_add_iff_right]
    by_cases h : entriesNestingDepth a ≤ limit
    · simp [h]
    · simp [h]
theorem limited_entries : ∀ (a : List (Key × Variant)) (limit : Nat) (child : bson_t),
    convertPart_Array_loop_limited child a limit
      = if entriesNestingDepth a ≤ limit then some (convertPart_Array_loop child a) else none
  | [], limit, child => by
    simp [convertPart_Array_loop_limited, convertPart_Array_loop_nil, entriesNestingDepth]
  | (k, d) :: rest, limit, child => by
    rw [convertPart_Array_loop_limited, limited_value d limit, convertPart_Array_loop_cons,
      entriesNestingDepth]
    by_cases h1 : d.nestingDepth ≤ limit
    · simp only [h1, if_true, limited_entries rest limit]
      by_cases h2 : entriesNestingDepth rest ≤ limit
      · simp [h1, h2]
      · simp [h1, h2]
    · simp [h1]
end

/-- C14: the encoder is a total function, defined by structural recursion on
the value, and its recursion is exactly as deep as the containers are nested:
run with a bound on the nesting of `convertPart(bson, key, Array)`
activations it gives the result of the unbounded encoder when the bound is at
least the nesting depth of the value and runs out otherwise. The encoder
itself has no bound and gives a result for every value, at every depth. -/
theorem convert_terminates (bson : bson_t) (key : CStr) (v : Variant) (limit : Nat)
    (root : ArrayData) :
    convertPart_Variant_limited bson key v limit
        = (if v.nestingDepth ≤ limit then some (convertPart_Variant bson key v) else none)
    ∧ convertPart_Variant_limited bson key v v.nestingDepth
        = some (convertPart_Variant bson key v)
    ∧ convertPart_Array_loop_limited bson root (entriesNestingDepth root)
        = some ((VariantToBsonConverter.new (.array root)).convert bson)
    ∧ (∃ result : bson_t, (VariantToBsonConverter.new v).convert bson = result)
    ∧ convertPart_Variant_limited bson_new [107, 0] (.array [(.int 0, .array [])]) 1 = none
    ∧ convertPart_Variant_limited bson_new [107, 0] (.array [(.int 0, .array [])]) 2
        = some ⟨[([107], .array [([48], .array [])])], none⟩ := by
  refine ⟨limited_value v limit bson key, ?_, ?_, ⟨_, rfl⟩, rfl, rfl⟩
  · rw [limited_value]
    simp
  · rw [limited_entries]
    simp [VariantToBsonConverter.convert, VariantToBsonConverter.new, convert_Variant,
      convert_Array_eq_loop]

/-! ## The classifier on narrowed keys -/

theorem isPackedArray_loop_iff (a : ArrayData) : ∀ idx : Nat,
    _isPackedArray_loop idx a = true
      ↔ (∀ e ∈ a, e.1.isInteger = true)
        ∧ ∀ (i : Nat) (n : Int) (v : Variant), a[i]? = some (Key.int n, v) →
            toInt32 n = ((idx + i : Nat) : Int) := by
  induction a with
  | nil => intro idx; simp [_isPackedArray_loop]
  | cons e rest ih =>
    intro idx
    obtain ⟨k, d⟩ := e
    cases k with
    | str s => simp [_isPackedArray_loop, Key.isInteger]
    | int m =>
      simp only [_isPackedArray_loop, Key.isInteger, Bool.not_true, Bool.false_eq_true,
        if_false, ne_eq, ite_not]
      constructor
      · intro h
        by_cases hm : (idx : Int) = toInt32 m
        · simp only [hm, if_true] at h
          have hrest := (ih (idx + 1)).mp h
          refine ⟨?_, ?_⟩
          · intro e he
            rcases List.mem_cons.mp he with rfl | he
            · rfl
            · exact hrest.1 e he
          · intro i n v hi
            cases i with
            | zero =>
              simp only [List.getElem?_cons_zero, Option.some.injEq, Prod.mk.injEq,
                Key.int.injEq] at hi
              rw [← hi.1, ← hm]
              simp
            | succ j =>
              simp only [List.getElem?_cons_succ] at hi
              have := hrest.2 j n v hi
              rw [this]
              congr 1
              omega
        · simp [hm] at h
      · intro h
        have h0 := h.2 0 m d (by simp)
        have hm : (idx : Int) = toInt32 m := by
          rw [h0]
          simp
        simp only [hm, if_true]
        apply (ih (idx + 1)).mpr
        refine ⟨fun e he => h.1 e (List.mem_cons_of_mem _ he), ?_⟩
        intro i n v hi
        have := h.2 (i + 1) n v (by simpa using hi)
        rw [this]
        congr 1
        omega

/-- C15: the classifier under narrowing to 32 bits. For every container `a`,
`_isPackedArray a` is true exactly when every key is an integer key and, at
every position `i`, the key narrowed to a signed 32 bit integer equals `i`.
So the one-entry container with key 4294967296, whose keys are not
`0, ..., n-1`, is classified as packed. -/
theorem isPackedArray_iff_narrowed_keys (a : ArrayData) :
    (_isPackedArray a = true
      ↔ (∀ e ∈ a, e.1.isInteger = true)
        ∧ ∀ (i : Nat) (n : Int) (v : Variant), a[i]? = some (Key.int n, v) →
            toInt32 n = (i : Int))
    ∧ toInt32 4294967296 = 0
    ∧ _isPackedArray [(Key.int 4294967296, Variant.int64 1)] = true
    ∧ [(Key.int 4294967296, Variant.int64 1)].map Prod.fst ≠ [Key.int 0] := by
  refine ⟨?_, by decide, by decide, by decide⟩
  have h := isPackedArray_loop_iff a 0
  simpa [_isPackedArray] using h

/-! ## Skipped objects and roots that are not containers -/

theorem convertPart_Array_loop_filter (a : ArrayData) : ∀ child : bson_t,
    convertPart_Array_loop child a
      = convertPart_Array_loop child (a.filter (fun e => !e.2.isObject)) := by
  induction a with
  | nil => intro child; rfl
  | cons e rest ih =>
    intro child
    obtain ⟨k, d⟩ := e
    by_cases h : d.isObject = true
    · rw [convertPart_Array_loop_cons, convertPart_Variant_object _ _ d h, ih]
      simp [h]
    · simp only [Bool.not_eq_true] at h
      simp only [List.filter_cons, h, Bool.not_false, if_true, convertPart_Array_loop_cons]
      exact ih _

/-- C16: object entries are skipped silently. For every builder state and key,
`convertPart(bson, key, Object)` leaves the builder unchanged and no call
reports an error, so encoding a container writes exactly the elements of its
entries that are not objects, in order, while the frame kind is chosen from
the keys of all entries, the skipped ones included: `[(0,1),(1,obj),(2,3)]`
is emitted as an array frame with the keys `"0"` and `"2"`. -/
theorem object_entries_are_skipped (bson : bson_t) (key : CStr) (o : Nat) (c : ArrayData)
    (self : VariantToBsonConverter) :
    convertPart_Object bson key o = bson
    ∧ convertPart_Variant bson key (.object o) = bson
    ∧ (∀ e : EncodeError, self.call bson ≠ Outcome.failed e)
    ∧ convertPart_Array_loop bson c
        = convertPart_Array_loop bson (c.filter (fun e => !e.2.isObject))
    ∧ convert_Array bson c = convert_Array bson (c.filter (fun e => !e.2.isObject))
    ∧ convertPart_Array bson key c
        = ⟨bson.elems ++ [(c_string key,
            if _isPackedArray c then
              bson_value.array
                (convertPart_Array_loop bson_new (c.filter (fun e => !e.2.isObject))).elems
            else
              bson_value.document
                (convertPart_Array_loop bson_new (c.filter (fun e => !e.2.isObject))).elems)],
          none⟩
    ∧ ((convertPart_Array_loop bson_new c).elems).map Prod.fst
        = (c.filter (fun e => !e.2.isObject)).map (fun e => c_string e.1.toString)
    ∧ convertPart_Array bson_new [107, 0]
          [(.int 0, .int64 1), (.int 1, .object 7), (.int 2, .int64 3)]
        = ⟨[([107], .array [([48], .int64 1), ([50], .int64 3)])], none⟩ := by
  refine ⟨rfl, convertPart_Variant_object _ _ (.object o) rfl, ?_,
    convertPart_Array_loop_filter c bson, ?_, ?_, convertPart_Array_loop_keys c, rfl⟩
  · intro e
    simp [VariantToBsonConverter.call]
  · rw [convert_Array_eq_loop, convert_Array_eq_loop]
    exact convertPart_Array_loop_filter c bson
  · rw [convertPart_Array, convertPart_Variant_array, ← convertPart_Array_loop_filter]

/-- C17: for every root that is not a container, a scalar or an object, and
every builder state, `convert(bson)` returns and leaves the builder exactly as
it was: no element is appended and no error is reported. -/
theorem convert_root_not_container (doc : Variant) (bson : bson_t)
    (h : doc.isArray = false) :
    (VariantToBsonConverter.new doc).convert bson = bson
    ∧ (VariantToBsonConverter.new doc).call bson = Outcome.returned bson := by
  cases doc with
  | array a => simp [Variant.isArray] at h
  | _ => exact ⟨rfl, rfl⟩

/-- Witness for C17 at the object root and a builder holding one element. -/
theorem convert_root_not_container_witness :
    (Variant.object 3).isArray = false
    ∧ (VariantToBsonConverter.new (.object 3)).convert ⟨[([97], .null)], none⟩
        = ⟨[([97], .null)], none⟩ :=
  ⟨rfl, (convert_root_not_container (.object 3) ⟨[([97], .null)], none⟩ rfl).1⟩

/-! ## Read preference tag sets -/

theorem are_valid_loop_eq_all (a : ArrayData) :
    hippo_mongo_driver_readpreference_are_valid_loop a
      = a.all (fun e => e.2.isArray || e.2.isObject) := by
  induction a with
  | nil => rfl
  | cons e rest ih =>
    obtain ⟨k, d⟩ := e
    simp only [hippo_mongo_driver_readpreference_are_valid_loop, ih, List.all_cons]
    cases d.isArray <;> cases d.isObject <;> simp

/-- C18: `hippo_mongo_driver_readpreference_are_valid(tags)` returns true
exactly when `tags` is a container and every one of its values is a container
or an object. It returns true for the empty container and false for every
`tags` that is not a container, and it does not depend on the keys. -/
theorem are_valid_iff (tags : Variant) (a : ArrayData) (f : Key → Key) :
    (hippo_mongo_driver_readpreference_are_valid tags = true
      ↔ ∃ arr : ArrayData, tags = .array arr
          ∧ ∀ e ∈ arr, e.2.isArray = true ∨ e.2.isObject = true)
    ∧ hippo_mongo_driver_readpreference_are_valid (.array []) = true
    ∧ (tags.isArray = true ∨ hippo_mongo_driver_readpreference_are_valid tags = false)
    ∧ hippo_mongo_driver_readpreference_are_valid (.array (a.map (fun e => (f e.1, e.2))))
        = hippo_mongo_driver_readpreference_are_valid (.array a) := by
  refine ⟨?_, rfl, ?_, ?_⟩
  · cases tags with
    | array arr =>
      simp [hippo_mongo_driver_readpreference_are_valid, Variant.isArray,
        are_valid_loop_eq_all]
    | _ => simp [hippo_mongo_driver_readpreference_are_valid, Variant.isArray]
  · cases tags with
    | array arr => exact Or.inl rfl
    | _ => exact Or.inr rfl
  · have hv : ∀ arr : ArrayData, hippo_mongo_driver_readpreference_are_valid (.array arr)
        = hippo_mongo_driver_readpreference_are_valid_loop arr := fun _ => rfl
    rw [hv, hv, are_valid_loop_eq_all, are_valid_loop_eq_all, List.all_map]
    rfl

theorem Array_add_new_key (arr : ArrayData) (key : Key) (v : Variant)
    (h : key ∉ arr.map Prod.fst) : Array_add arr key v = some (arr ++ [(key, v)]) := by
  have hany : arr.any (fun e => decide (e.1 = key)) = false := by
    rw [Bool.eq_false_iff]
    intro hc
    obtain ⟨e, he, hk⟩ := List.any_eq_true.mp hc
    have hk2 : e.1 = key := by simpa using hk
    exact h (hk2 ▸ List.mem_map_of_mem Prod.fst he)
  simp [Array_add, hany]

theorem prep_tagsets_loop_eq (toObject : Variant → Nat) (rest : ArrayData) :
    ∀ newTags : ArrayData, ((newTags ++ rest).map Prod.fst).Nodup →
    hippo_mongo_driver_readpreference_prep_tagsets_loop toObject newTags rest
      = some (newTags ++ rest.map
          (fun e => (e.1, if e.2.isArray then Variant.object (toObject e.2) else e.2))) := by
  induction rest with
  | nil => intro newTags _; simp [hippo_mongo_driver_readpreference_prep_tagsets_loop]
  | cons e rest ih =>
    intro newTags h
    obtain ⟨k, d⟩ := e
    have hk : k ∉ newTags.map Prod.fst := by
      rw [List.map_append, List.nodup_append] at h
      intro hmem
      exact h.2.2 hmem (by simp)
    have hnext : ∀ v : Variant, (((newTags ++ [(k, v)]) ++ rest).map Prod.fst).Nodup := by
      intro v
      simpa using h
    rw [hippo_mongo_driver_readpreference_prep_tagsets_loop]
    by_cases hd : d.isArray = true
    · simp only [hd, if_true, Array_add_new_key newTags k _ hk]
      rw [ih _ (hnext _)]
      simp [hd]
    · simp only [hd, Bool.false_eq_true, if_false, Array_add_new_key newTags k _ hk]
      rw [ih _ (hnext _)]
      simp [hd]

/-- C19: for every container `tags` with pairwise distinct keys,
`hippo_mongo_driver_readpreference_prep_tagsets(tags)` returns a container
with the same number of entries and the same keys in the same order, in which
every value that was a container is replaced by its object conversion and
every other value is unchanged. The function only reads `tags`. -/
theorem prep_tagsets_result (toObject : Variant → Nat) (tags : ArrayData)
    (h : (tags.map Prod.fst).Nodup) :
    hippo_mongo_driver_readpreference_prep_tagsets toObject tags
        = some (tags.map
            (fun e => (e.1, if e.2.isArray then Variant.object (toObject e.2) else e.2)))
    ∧ (tags.map
          (fun e => (e.1, if e.2.isArray then Variant.object (toObject e.2) else e.2))).length
        = tags.length
    ∧ (tags.map
          (fun e => (e.1, if e.2.isArray then Variant.object (toObject e.2) else e.2))).map
          Prod.fst
        = tags.map Prod.fst := by
  refine ⟨?_, by simp, by simp [List.map_map, Function.comp_def]⟩
  have := prep_tagsets_loop_eq toObject tags [] (by simpa using h)
  simpa [hippo_mongo_driver_readpreference_prep_tagsets, Array_Create] using this

/-- Witness for C19 at the tag sets `[(0, [("dc", "ny")]), (1, 5)]`, the object
made from a value having handle 9. -/
theorem prep_tagsets_result_witness :
    ([(Key.int 0, Variant.array [(.str [100, 99], .string [110, 121])]),
        (Key.int 1, Variant.int64 5)].map Prod.fst).Nodup
    ∧ hippo_mongo_driver_readpreference_prep_tagsets (fun _ => 9)
        [(.int 0, .array [(.str [100, 99], .string [110, 121])]), (.int 1, .int64 5)]
      = some [(.int 0, .object 9), (.int 1, .int64 5)] :=
  ⟨by decide, (prep_tagsets_result (fun _ => 9)
    [(.int 0, .array [(.str [100, 99], .string [110, 121])]), (.int 1, .int64 5)]
    (by decide)).1⟩

end HPHP
